import Mathlib

/-!
# Verification of the snapshot paginator and tab coordination layer

Shallow embedding of the `playwright-mcp-world` repository's snapshot
pagination subsystem (`src/pageSnapshot.ts` `PageSnapshot.truncatedText`,
duplicated in `src/tools/snapshot.ts` `browser_snapshot.handle` and, with a
tokenizer-based element size, in `Tab.captureTruncatedSnapshot`), and of the
tab/modal-state coordination layer (`Tab` in `src/unnamed/part_000`).

Conventions of the embedding:
* Raw snapshot text is split on `'\n'` exactly as `rawSnapshot.split('\n')`
  does; the paginator core is defined over the resulting `List String`.
* JavaScript numbers that the code only ever uses as non-negative integers
  (word counts, line indices, token budgets) are `Nat`; the requested page
  number, which the caller may pass as any integer, is `Int`.
* `Math.floor(maxTokens * 0.75)` is `maxTokens * 3 / 4` in `Nat`: `0.75` is
  exact in binary floating point, so for the integer budgets the code deals in
  the product is exact and the floor is the rational floor.
* JavaScript string helpers used by the code (`trim`, the `^(\s*)` regex,
  `split(/\s+/).filter(w => w.length > 0)`, `startsWith('-')`) are modelled
  at the character-list level; `\s` is modelled by `Char.isWhitespace`,
  which agrees on the ASCII whitespace the snapshots contain.
-/

namespace PlaywrightMcp

/-- One character of JavaScript whitespace (`\s`), restricted to the ASCII
whitespace that accessibility snapshots contain. -/
def isWS (c : Char) : Bool := c.isWhitespace

/-- `line.match(/^(\s*)/)[1].length`: the number of leading whitespace
characters of a line. -/
def leadingWS (line : String) : Nat := (line.data.takeWhile isWS).length

/-- Truthiness of `line.trim()`: a line is blank iff every character is
whitespace (then `trim` yields `''`, which is falsy). -/
def isBlank (line : String) : Bool := line.data.all isWS

/-- `line.trim().startsWith('-')`: the first non-whitespace character of the
line is a dash. -/
def startsDash (line : String) : Bool :=
  match line.data.dropWhile isWS with
  | [] => false
  | c :: _ => c = '-'

/-- Helper for `wordCountL`: counts maximal nonempty runs of non-whitespace
characters, tracking whether the scanner is currently inside such a run. -/
def wordCountAux : List Char → Bool → Nat
  | [], _ => 0
  | c :: cs, inWord =>
    if isWS c then wordCountAux cs false
    else (if inWord then 0 else 1) + wordCountAux cs true

/-- `line.split(/\s+/).filter(w => w.length > 0).length`: the number of
maximal runs of non-whitespace characters. -/
def wordCountL (cs : List Char) : Nat := wordCountAux cs false

/-- Word count of a line, as computed in the element-size loop of
`truncatedText` (`pageSnapshot.ts` line 102, `snapshot.ts` line 114). -/
def wordCount (line : String) : Nat := wordCountL line.data

/-- A line that is not blank contains at least one word. -/
theorem one_le_wordCountAux {cs : List Char} (h : cs.all isWS = false) :
    1 ≤ wordCountAux cs false := by
  induction cs with
  | nil => simp at h
  | cons c cs ih =>
    by_cases hc : isWS c
    · rw [List.all_cons, hc, Bool.true_and] at h
      simpa [wordCountAux, hc] using ih h
    · simp [wordCountAux, hc]

theorem one_le_wordCount {line : String} (h : isBlank line = false) :
    1 ≤ wordCount line :=
  one_le_wordCountAux h

/-! ## Element-boundary detection

First pass of `truncatedText` (`pageSnapshot.ts` lines 51-87, identical in
`snapshot.ts` lines 63-99 and `part_000` lines 254-290).  The source pushes
`elementStartLine` and the exclusive end line into a flat array
`elementBoundaries`; the embedding keeps the pairs paired, so the source's
`elementBoundaries.length / 2` is `(elementBoundaries lines).length` here. -/

/-- Mutable state of the boundary-detection loop: the boundary pairs pushed so
far, the `inElement` flag and the pending `elementStartLine`. -/
structure ScanState where
  boundaries : List (Nat × Nat)
  inElement : Bool
  elementStartLine : Nat
deriving DecidableEq

/-- One iteration of the boundary-detection loop at line index `i`, where
`line` is `lines[i]` and `next?` is `lines[i+1]` when `i < lines.length - 1`.
Mirrors the loop body: first the element-start detection, then the
element-end detection (current line blank, or next line non-blank with
indentation at most the current one's while the current line is a list
item). -/
def scanStep (i : Nat) (line : String) (next? : Option String) (st : ScanState) : ScanState :=
  let st1 := if isBlank line = false ∧ st.inElement = false then
    ⟨st.boundaries, true, i⟩ else st
  match next? with
  | none => st1
  | some next =>
    if (isBlank line = true ∨
        (isBlank next = false ∧ leadingWS next ≤ leadingWS line ∧ startsDash line = true)) ∧
        st1.inElement = true then
      ⟨st1.boundaries ++ [(st1.elementStartLine, i + 1)], false, st1.elementStartLine⟩
    else st1

/-- The boundary-detection `for` loop, processing the lines from index `i`
to the end; `rest.head?` supplies `lines[i+1]`. -/
def scanLines : Nat → List String → ScanState → ScanState
  | _, [], st => st
  | i, l :: rest, st =>
    match scanStep i l rest.head? st with
    | ⟨b, inEl, esl⟩ => scanLines (i + 1) rest ⟨b, inEl, esl⟩

/-- Force-close the final in-progress element at end of input
(`pageSnapshot.ts` lines 83-87); `n` is `lines.length`. -/
def finishScan (n : Nat) (st : ScanState) : List (Nat × Nat) :=
  if st.inElement then st.boundaries ++ [(st.elementStartLine, n)]
  else st.boundaries

/-- All element boundaries of the line list: run the scan from line 0 and
force-close the final in-progress element at end of input. -/
def elementBoundaries (lines : List String) : List (Nat × Nat) :=
  finishScan lines.length (scanLines 0 lines ⟨[], false, 0⟩)

/-! ## Declarative characterization of boundary detection

The claim describes boundary detection declaratively: a new element begins at
the first non-blank line outside an element, and the open element is closed at
the first line satisfying the end condition — current line blank, or the next
line non-blank with indentation at most the current one's while the current
line is a list item — the blank-terminated element absorbing its closing blank
line; an element still open at end of input is force-closed there.  The
definitions below state that rule directly; the theorem for the claim proves
the imperative scan equal to it. -/

/-- Modelled from the spec: the element-end condition at line `i` — end of
input force-closes, a blank current line closes, and a non-blank next line at
indentation at most the current one's closes a list-item line. -/
def closeHere (lines : List String) (i : Nat) : Bool :=
  if i + 1 < lines.length then
    isBlank (lines.getD i "") ||
      (!isBlank (lines.getD (i + 1) "") &&
        decide (leadingWS (lines.getD (i + 1) "") ≤ leadingWS (lines.getD i "")) &&
        startsDash (lines.getD i ""))
  else true

/-- The line after which the element open at position `i` closes: one past the
first line at or after `i` satisfying `closeHere` (end of input otherwise). -/
def nextClose (lines : List String) (i : Nat) : Nat :=
  match (List.range' i (lines.length - i)).find? (fun j => closeHere lines j) with
  | some j => j + 1
  | none => lines.length

theorem closeHere_of_last {lines : List String} {i : Nat}
    (h : ¬ i + 1 < lines.length) : closeHere lines i = true := by
  simp [closeHere, h]

theorem lt_nextClose {lines : List String} {i : Nat} (h : i < lines.length) :
    i < nextClose lines i := by
  unfold nextClose
  cases hf : (List.range' i (lines.length - i)).find? (fun j => closeHere lines j) with
  | none =>
    exfalso
    have hmem : lines.length - 1 ∈ List.range' i (lines.length - i) := by
      rw [List.mem_range'_1]; omega
    have := List.find?_eq_none.mp hf _ hmem
    exact this (closeHere_of_last (by omega))
  | some j =>
    dsimp only
    have hj := List.mem_range'_1.mp (List.mem_of_find?_eq_some hf)
    omega

theorem nextClose_le_length {lines : List String} {i : Nat} :
    nextClose lines i ≤ lines.length := by
  unfold nextClose
  cases hf : (List.range' i (lines.length - i)).find? (fun j => closeHere lines j) with
  | none => exact Nat.le_refl _
  | some j =>
    dsimp only
    have hj := List.mem_range'_1.mp (List.mem_of_find?_eq_some hf)
    omega

/-- Unfolding step for `nextClose` below the end of input. -/
theorem nextClose_eq {lines : List String} {i : Nat} (h : i < lines.length) :
    nextClose lines i =
      if closeHere lines i then i + 1 else nextClose lines (i + 1) := by
  have hr : List.range' i (lines.length - i) = i :: List.range' (i + 1) (lines.length - (i + 1)) := by
    have h1 : lines.length - i = (lines.length - (i + 1)) + 1 := by omega
    rw [h1, List.range'_succ]
  by_cases hc : closeHere lines i
  · rw [if_pos hc]
    unfold nextClose
    rw [hr, List.find?_cons]
    simp [hc]
  · rw [if_neg hc]
    unfold nextClose
    rw [hr, List.find?_cons]
    simp [hc]

/-- Modelled from the spec: the declarative single-pass boundary rule — skip
blank lines outside elements, begin an element at each non-blank line, and
close it one past the first line at or after its start satisfying the end
condition (blank line, or next non-blank line at indentation at most the
current one's when the current line is a list item), force-closing at end of
input. -/
def specFrom (lines : List String) (i : Nat) : List (Nat × Nat) :=
  if h : i < lines.length then
    if isBlank (lines.getD i "") then specFrom lines (i + 1)
    else (i, nextClose lines i) :: specFrom lines (nextClose lines i)
  else []
termination_by lines.length - i
decreasing_by
  · omega
  · have := lt_nextClose h
    omega

/-- Modelled from the spec: all element boundaries under the claim's
declarative rule. -/
def elementBoundariesSpec (lines : List String) : List (Nat × Nat) :=
  specFrom lines 0

theorem specFrom_of_ge {lines : List String} {i : Nat} (h : lines.length ≤ i) :
    specFrom lines i = [] := by
  rw [specFrom]
  simp [Nat.not_lt.mpr h]

theorem nextClose_of_ge {lines : List String} {i : Nat} (h : lines.length ≤ i) :
    nextClose lines i = lines.length := by
  unfold nextClose
  rw [Nat.sub_eq_zero_of_le h]
  simp

theorem getElem?_of_drop_cons {lines : List String} {i : Nat} {cur : String} {rest : List String}
    (h : lines.drop i = cur :: rest) : lines[i]? = some cur := by
  have h1 := List.getElem?_drop lines i 0
  rw [h] at h1
  simpa using h1.symm

theorem getD_of_drop_cons {lines : List String} {i : Nat} {cur : String} {rest : List String}
    (h : lines.drop i = cur :: rest) : lines.getD i "" = cur := by
  simp [List.getD_eq_getElem?_getD, getElem?_of_drop_cons h]

theorem drop_succ_of_drop_cons {lines : List String} {i : Nat} {cur : String} {rest : List String}
    (h : lines.drop i = cur :: rest) : lines.drop (i + 1) = rest := by
  have h1 := List.drop_drop 1 i lines
  rw [h] at h1
  simpa using h1.symm

theorem lt_length_of_drop_cons {lines : List String} {i : Nat} {cur : String} {rest : List String}
    (h : lines.drop i = cur :: rest) : i < lines.length := by
  by_contra hh
  rw [List.drop_eq_nil_of_le (Nat.le_of_not_lt hh)] at h
  exact List.noConfusion h

theorem closeHere_iff {lines : List String} {i : Nat} {cur nx : String}
    (hcur : lines.getD i "" = cur) (hnx : lines.getD (i + 1) "" = nx)
    (hi : i + 1 < lines.length) :
    closeHere lines i = true ↔
      (isBlank cur = true ∨
        (isBlank nx = false ∧ leadingWS nx ≤ leadingWS cur ∧ startsDash cur = true)) := by
  simp only [closeHere, if_pos hi, hcur, hnx, Bool.or_eq_true, Bool.and_eq_true,
    Bool.not_eq_true', decide_eq_true_eq]
  tauto

/-- The imperative scan, continued from any intermediate state, produces the
already-pushed boundaries followed by the declarative rule's boundaries for
the remaining input (the open element, if any, closing at the first
end-condition line at or after the current position). -/
theorem scan_spec (lines : List String) :
    ∀ (rest : List String) (i : Nat) (st : ScanState),
      lines.drop i = rest → i ≤ lines.length →
      finishScan lines.length (scanLines i rest st) =
        st.boundaries ++
          (if st.inElement then
            (st.elementStartLine, nextClose lines i) :: specFrom lines (nextClose lines i)
          else specFrom lines i) := by
  intro rest
  induction rest with
  | nil =>
    intro i st hdrop hle
    have hlen : i = lines.length := by
      have := List.drop_eq_nil_iff_le.mp hdrop
      omega
    subst hlen
    rw [nextClose_of_ge (Nat.le_refl _), specFrom_of_ge (Nat.le_refl _)]
    cases hIn : st.inElement <;> simp [scanLines, finishScan, hIn]
  | cons cur rest' ih =>
    intro i st hdrop hle
    have hi : i < lines.length := lt_length_of_drop_cons hdrop
    have hcur : lines.getD i "" = cur := getD_of_drop_cons hdrop
    have hcurQ : lines[i]? = some cur := getElem?_of_drop_cons hdrop
    have hdrop' : lines.drop (i + 1) = rest' := drop_succ_of_drop_cons hdrop
    cases rest' with
    | nil =>
      -- `i` is the last line: the step only runs start-detection, and
      -- `nextClose` at `i` is the forced close at end of input
      have hlast : i + 1 = lines.length := by
        have := List.drop_eq_nil_iff_le.mp hdrop'
        omega
      have hclose : closeHere lines i = true := closeHere_of_last (by omega)
      have hnc : nextClose lines i = i + 1 := by
        rw [nextClose_eq hi, if_pos hclose]
      have hspec1 : specFrom lines (i + 1) = [] := specFrom_of_ge (by omega)
      have hspecN : specFrom lines lines.length = [] := specFrom_of_ge (Nat.le_refl _)
      have hspec0 : specFrom lines i =
          if isBlank (lines.getD i "") then specFrom lines (i + 1)
          else (i, nextClose lines i) :: specFrom lines (nextClose lines i) := by
        rw [specFrom]; simp [hi]
      cases hIn : st.inElement with
      | true =>
        simp [scanLines, scanStep, hIn, finishScan, hspec0, hnc, hspec1, hspecN, hlast]
      | false =>
        cases hB : isBlank cur with
        | true =>
          simp [scanLines, scanStep, hIn, hB, finishScan, hspec0, hcur, hcurQ, hnc, hspec1, hspecN]
        | false =>
          simp [scanLines, scanStep, hIn, hB, finishScan, hspec0, hcur, hcurQ, hnc, hspec1,
            hspecN, hlast]
    | cons nx rest'' =>
      have hi1 : i + 1 < lines.length := lt_length_of_drop_cons hdrop'
      have hnx : lines.getD (i + 1) "" = nx := getD_of_drop_cons hdrop'
      have hCiff := closeHere_iff hcur hnx hi1
      have hspec0 : specFrom lines i =
          if isBlank (lines.getD i "") then specFrom lines (i + 1)
          else (i, nextClose lines i) :: specFrom lines (nextClose lines i) := by
        rw [specFrom]; simp [hi]
      have hstep : scanLines i (cur :: nx :: rest'') st =
          scanLines (i + 1) (nx :: rest'') (scanStep i cur (some nx) st) := by
        simp [scanLines]
      cases hIn : st.inElement with
      | true =>
        by_cases hC : (isBlank cur = true ∨
            (isBlank nx = false ∧ leadingWS nx ≤ leadingWS cur ∧ startsDash cur = true))
        · -- the open element closes after line `i`
          have hch : closeHere lines i = true := hCiff.mpr hC
          have hnc : nextClose lines i = i + 1 := by
            rw [nextClose_eq hi, if_pos hch]
          have hst : scanStep i cur (some nx) st =
              ⟨st.boundaries ++ [(st.elementStartLine, i + 1)], false, st.elementStartLine⟩ := by
            simp [scanStep, hIn, hC]
          rw [hstep, hst, ih (i + 1) _ hdrop' (by omega)]
          simp [hnc, hspec0]
        · -- the element stays open
          have hch : closeHere lines i = false := by
            cases h : closeHere lines i with
            | true => exact absurd (hCiff.mp h) hC
            | false => rfl
          have hnc : nextClose lines i = nextClose lines (i + 1) := by
            rw [nextClose_eq hi, hch]; simp
          have hst : scanStep i cur (some nx) st = st := by
            simp [scanStep, hIn, hC]
          rw [hstep, hst, ih (i + 1) _ hdrop' (by omega)]
          simp [hIn, hnc]
      | false =>
        cases hB : isBlank cur with
        | true =>
          -- blank line outside any element: nothing happens
          have hst : scanStep i cur (some nx) st = st := by
            simp [scanStep, hIn, hB]
          rw [hstep, hst, ih (i + 1) _ hdrop' (by omega)]
          simp [hIn, hspec0, hcur, hcurQ, hB]
        | false =>
          -- a new element starts at line `i`
          by_cases hC : (isBlank cur = true ∨
              (isBlank nx = false ∧ leadingWS nx ≤ leadingWS cur ∧ startsDash cur = true))
          · have hch : closeHere lines i = true := hCiff.mpr hC
            have hnc : nextClose lines i = i + 1 := by
              rw [nextClose_eq hi, if_pos hch]
            have hC2 : isBlank nx = false ∧ leadingWS nx ≤ leadingWS cur ∧
                startsDash cur = true := hC.resolve_left (by simp [hB])
            have hst : scanStep i cur (some nx) st =
                ⟨st.boundaries ++ [(i, i + 1)], false, i⟩ := by
              simp [scanStep, hIn, hB, hC2]
            rw [hstep, hst, ih (i + 1) _ hdrop' (by omega)]
            simp [hspec0, hcur, hcurQ, hB, hnc]
          · have hch : closeHere lines i = false := by
              cases h : closeHere lines i with
              | true => exact absurd (hCiff.mp h) hC
              | false => rfl
            have hnc : nextClose lines i = nextClose lines (i + 1) := by
              rw [nextClose_eq hi, hch]; simp
            have hC2 : ¬ (isBlank nx = false ∧ leadingWS nx ≤ leadingWS cur ∧
                startsDash cur = true) := fun h => hC (Or.inr h)
            have hst : scanStep i cur (some nx) st = ⟨st.boundaries, true, i⟩ := by
              simp [scanStep, hIn, hB, hC2]
            rw [hstep, hst, ih (i + 1) _ hdrop' (by omega)]
            simp [hspec0, hcur, hcurQ, hB, hnc]

/-- The imperative boundary scan equals the declarative rule. -/
theorem elementBoundaries_eq_spec (lines : List String) :
    elementBoundaries lines = elementBoundariesSpec lines := by
  unfold elementBoundaries elementBoundariesSpec
  rw [scan_spec lines lines 0 ⟨[], false, 0⟩ (by simp) (Nat.zero_le _)]
  simp

/-! ## Shape of the element list -/

theorem specFrom_mem_aux (lines : List String) :
    ∀ (d i : Nat), lines.length - i ≤ d → ∀ p ∈ specFrom lines i,
      i ≤ p.1 ∧ p.1 < p.2 ∧ p.2 ≤ lines.length ∧ isBlank (lines.getD p.1 "") = false := by
  intro d
  induction d with
  | zero =>
    intro i hd p hp
    rw [specFrom_of_ge (by omega)] at hp
    exact absurd hp (List.not_mem_nil p)
  | succ d ihd =>
    intro i hd p hp
    rw [specFrom] at hp
    by_cases hi : i < lines.length
    · rw [dif_pos hi] at hp
      by_cases hB : isBlank (lines.getD i "")
      · rw [if_pos hB] at hp
        have := ihd (i + 1) (by omega) p hp
        exact ⟨by omega, this.2⟩
      · rw [if_neg hB] at hp
        rcases List.mem_cons.mp hp with h | h
        · subst h
          exact ⟨Nat.le_refl _, lt_nextClose hi, nextClose_le_length,
            Bool.not_eq_true _ ▸ by simpa using hB⟩
        · have hlt := lt_nextClose hi
          have := ihd (nextClose lines i) (by omega) p h
          exact ⟨by omega, this.2⟩
    · rw [dif_neg hi] at hp
      exact absurd hp (List.not_mem_nil p)

theorem specFrom_mem (lines : List String) (i : Nat) :
    ∀ p ∈ specFrom lines i,
      i ≤ p.1 ∧ p.1 < p.2 ∧ p.2 ≤ lines.length ∧ isBlank (lines.getD p.1 "") = false :=
  specFrom_mem_aux lines (lines.length - i) i (Nat.le_refl _)

theorem specFrom_sorted_aux (lines : List String) :
    ∀ (d i : Nat), lines.length - i ≤ d →
      List.Pairwise (fun a b : Nat × Nat => a.2 ≤ b.1) (specFrom lines i) := by
  intro d
  induction d with
  | zero =>
    intro i hd
    rw [specFrom_of_ge (by omega)]
    exact List.Pairwise.nil
  | succ d ihd =>
    intro i hd
    rw [specFrom]
    by_cases hi : i < lines.length
    · rw [dif_pos hi]
      by_cases hB : isBlank (lines.getD i "")
      · rw [if_pos hB]
        exact ihd (i + 1) (by omega)
      · rw [if_neg hB]
        have hlt := lt_nextClose hi
        refine List.Pairwise.cons ?_ (ihd (nextClose lines i) (by omega))
        intro p hp
        exact (specFrom_mem lines _ p hp).1
    · rw [dif_neg hi]
      exact List.Pairwise.nil

/-- The element list is ordered: earlier elements end no later than later
ones start. -/
theorem elementBoundaries_sorted (lines : List String) :
    List.Pairwise (fun a b : Nat × Nat => a.2 ≤ b.1) (elementBoundaries lines) := by
  rw [elementBoundaries_eq_spec]
  exact specFrom_sorted_aux lines (lines.length - 0) 0 (Nat.le_refl _)

/-- Every element starts at a non-blank line, starts before it ends, and ends
within the input. -/
theorem elementBoundaries_mem (lines : List String) :
    ∀ p ∈ elementBoundaries lines,
      p.1 < p.2 ∧ p.2 ≤ lines.length ∧ isBlank (lines.getD p.1 "") = false := by
  rw [elementBoundaries_eq_spec]
  intro p hp
  exact (specFrom_mem lines 0 p hp).2

theorem specFrom_eq_nil_blank (lines : List String) :
    ∀ (d i : Nat), lines.length - i ≤ d → specFrom lines i = [] →
      ∀ k, i ≤ k → k < lines.length → isBlank (lines.getD k "") = true := by
  intro d
  induction d with
  | zero => intro i hd _ k hk1 hk2; omega
  | succ d ihd =>
    intro i hd hnil k hk1 hk2
    rw [specFrom] at hnil
    have hi : i < lines.length := by omega
    rw [dif_pos hi] at hnil
    by_cases hB : isBlank (lines.getD i "")
    · rw [if_pos hB] at hnil
      rcases Nat.eq_or_lt_of_le hk1 with h | h
      · subst h; exact hB
      · exact ihd (i + 1) (by omega) hnil k h hk2
    · rw [if_neg hB] at hnil
      exact absurd hnil (List.cons_ne_nil _ _)

/-- If some line is non-blank, the scan finds at least one element. -/
theorem elementBoundaries_ne_nil {lines : List String}
    (h : ∃ k, k < lines.length ∧ isBlank (lines.getD k "") = false) :
    elementBoundaries lines ≠ [] := by
  rw [elementBoundaries_eq_spec]
  intro hnil
  obtain ⟨k, hk, hkb⟩ := h
  have := specFrom_eq_nil_blank lines lines.length 0 (by omega) hnil k (Nat.zero_le _) hk
  rw [this] at hkb
  exact Bool.noConfusion hkb


/-! ## Page assembly

Second pass of `truncatedText` (`pageSnapshot.ts` lines 89-132), shared with
`snapshot.ts` lines 101-144 and — with token counts from the `cl100k_base`
encoder in place of word counts — `part_000` lines 292-333.  The pass is
parameterised by the element-size function `size` to cover both variants.
The source tracks the flat index `currentElementIndex` and divides by two
when pushing a page; the embedding tracks the element index directly. -/

/-- A page record `{startLine, endLine, startElement, endElement}`. -/
structure PageInfo where
  startLine : Nat
  endLine : Nat
  startElement : Nat
  endElement : Nat
deriving DecidableEq

/-- Mutable state of the page-assembly loop. -/
structure AsmState where
  pages : List PageInfo
  currentPageStart : Nat
  currentWordCount : Nat
  currentElementIndex : Nat
deriving DecidableEq

/-- The page-assembly `for` loop over the element list, starting at element
index `k`: if adding the element would exceed the page limit and the current
page already has content, close the current page and start a new one with
this element; otherwise accumulate. -/
def asmLoop (size : Nat × Nat → Nat) (maxWords : Nat) :
    Nat → List (Nat × Nat) → AsmState → AsmState
  | _, [], st => st
  | k, el :: rest, st =>
    let w := size el
    let st' : AsmState :=
      if maxWords < st.currentWordCount + w ∧ 0 < st.currentWordCount then
        ⟨st.pages ++ [⟨st.currentPageStart, el.1, st.currentElementIndex, k⟩],
         el.1, w, k⟩
      else
        ⟨st.pages, st.currentPageStart, st.currentWordCount + w, st.currentElementIndex⟩
    match st' with
    | ⟨p, cps, cwc, cei⟩ => asmLoop size maxWords (k + 1) rest ⟨p, cps, cwc, cei⟩

/-- The pages built from the element list: run the loop from the initial
state and flush the final page unconditionally when it has content
(`pageSnapshot.ts` lines 124-132).  `n` is `lines.length`. -/
def buildPagesWith (size : Nat × Nat → Nat) (maxWords : Nat)
    (elems : List (Nat × Nat)) (n : Nat) : List PageInfo :=
  let fin := asmLoop size maxWords 0 elems ⟨[], 0, 0, 0⟩
  if 0 < fin.currentWordCount then
    fin.pages ++ [⟨fin.currentPageStart, n, fin.currentElementIndex, elems.length⟩]
  else fin.pages

/-- Words in an element: the sum of the word counts of its lines
(`pageSnapshot.ts` lines 100-103). -/
def elementWords (lines : List String) (el : Nat × Nat) : Nat :=
  ((List.range' el.1 (el.2 - el.1)).map (fun j => wordCount (lines.getD j ""))).sum

/-- The pages of the word-budget paginator variant
(`pageSnapshot.ts`/`snapshot.ts`). -/
def buildPages (lines : List String) (maxWords : Nat) : List PageInfo :=
  buildPagesWith (elementWords lines) maxWords (elementBoundaries lines) lines.length

/-! ## Budgets, page selection and output assembly -/

/-- The word budget of the approximate truncation paths:
`Math.floor(maxTokens * 0.75)` with `wordsPerToken = 0.75`
(`pageSnapshot.ts` lines 44-46 and `snapshot.ts` lines 56-58). -/
def maxWordsPerPage (maxTokens : Nat) : Nat := maxTokens * 3 / 4

/-- The word budget of the `PageSnapshot.truncatedText` variant embedded in
`tools/evaluate.ts` (lines 663-666): `wordsPerToken = 1 / 0.75` and
`maxWords = Math.floor(maxTokens * wordsPerToken)`.  The double `1 / 0.75`
differs from the rational `4 / 3` by less than `2 ^ (-52)`, so at the budgets
considered in the theorems below (where `4 * maxTokens` is not a multiple of
three) the floating-point floor agrees with the rational floor used here. -/
def evaluateVariantMaxWords (maxTokens : Nat) : Nat := maxTokens * 4 / 3

/-- `pages.length || 1`. -/
def totalPagesOf (pages : List PageInfo) : Nat :=
  if pages.length = 0 then 1 else pages.length

/-- `Math.min(Math.max(1, pageNumber), totalPages)`. -/
def clampPage (pageNumber : Int) (totalPages : Nat) : Int :=
  min (max 1 pageNumber) (totalPages : Int)

/-- Helper for `splitLines`: walk the characters, cutting at each newline;
`acc` holds the current segment's characters in reverse. -/
def splitLinesAux : List Char → List Char → List String
  | [], acc => [String.mk acc.reverse]
  | c :: cs, acc =>
    if c = '\n' then String.mk acc.reverse :: splitLinesAux cs []
    else splitLinesAux cs (c :: acc)

/-- `rawSnapshot.split('\n')`: the segments between newline characters, in
order; the empty string yields `[""]` as in JavaScript. -/
def splitLines (raw : String) : List String := splitLinesAux raw.data []

/-- `lines.slice(a, b)` for `a ≤ b ≤ lines.length`. -/
def sliceLines (lines : List String) (a b : Nat) : List String :=
  (lines.drop a).take (b - a)

/-- `pageLines.join('\n')` / `finalText.join('\n')`. -/
def joinNL (l : List String) : String := String.intercalate "\n" l

/-- The context-preservation scan (`pageSnapshot.ts` lines 157-174): when the
page does not start at line 0, look backwards for the nearest earlier
non-blank line whose indentation is strictly smaller than the page's first
line's, and render it as a breadcrumb comment block. -/
def findContext (lines : List String) (startLine : Nat) : Option String :=
  if startLine = 0 then none
  else
    let firstLineIndent := leadingWS (lines.getD startLine "")
    ((List.range startLine).reverse.find? (fun i =>
        isBlank (lines.getD i "") = false ∧ leadingWS (lines.getD i "") < firstLineIndent)).map
      (fun i => "# Context from previous page:\n# " ++ lines.getD i "" ++ "\n# ...\n\n")

/-- The trailing banner pushed when `actualPage < totalPages`
(`pageSnapshot.ts` lines 188-195): the current page and page count, the
number of elements shown, the number of elements remaining, and the literal
instruction naming the next page number. -/
def bannerLines (actualPage : Int) (totalPages : Nat) (shown remaining : Nat) : List String :=
  let next : Int := actualPage + 1
  ["",
   "# MORE CONTENT AVAILABLE",
   s!"# This is page {actualPage} of {totalPages}",
   s!"# {shown} elements shown on this page",
   s!"# {remaining} more elements on remaining pages",
   s!"# To load the next page, use browser_snapshot with page: {next}"]

/-- The page selected by `pages[actualPage - 1]`. -/
def selectedPage (lines : List String) (maxTokens : Nat) (pageNumber : Int) :
    Option PageInfo :=
  let pages := buildPages lines (maxWordsPerPage maxTokens)
  (buildPages lines (maxWordsPerPage maxTokens)).get?
    (clampPage pageNumber (totalPagesOf pages) - 1).toNat

/-- The `finalText` array of `PageSnapshot.truncatedText`
(`pageSnapshot.ts` lines 139-197), before `join('\n')`: the empty-snapshot
fallback when no page exists, otherwise header, optional context breadcrumb,
the page's lines joined as one entry, the trailing banner when more pages
follow, and the closing fence. -/
def renderLines (lines : List String) (maxTokens : Nat) (pageNumber : Int) : List String :=
  let elems := elementBoundaries lines
  let pages := buildPages lines (maxWordsPerPage maxTokens)
  let total := totalPagesOf pages
  let actual := clampPage pageNumber total
  match pages.get? (actual - 1).toNat with
  | none => ["- Page Snapshot (Page 1 of 1)", "```yaml", "", "```"]
  | some pg =>
    [s!"- Page Snapshot (Page {actual} of {total})", "```yaml"]
    ++ (match findContext lines pg.startLine with
        | some c => [c]
        | none => [])
    ++ [joinNL (sliceLines lines pg.startLine pg.endLine)]
    ++ (if actual < total then
          bannerLines actual total (pg.endElement - pg.startElement)
            (elems.length - pg.endElement)
        else [])
    ++ ["```"]

/-- The record returned by `PageSnapshot.truncatedText`. -/
structure TruncatedResult where
  text : String
  isTruncated : Bool
  currentPage : Int
  totalPages : Nat
deriving DecidableEq

/-- `PageSnapshot.truncatedText(maxTokens, pageNumber)` over the line list of
the raw snapshot (`pageSnapshot.ts` lines 43-205).  In the empty-snapshot
branch the source returns `currentPage = 1`, `totalPages = 1`,
`isTruncated = false` literally. -/
def truncatedText (lines : List String) (maxTokens : Nat) (pageNumber : Int) :
    TruncatedResult :=
  let pages := buildPages lines (maxWordsPerPage maxTokens)
  let total := totalPagesOf pages
  let actual := clampPage pageNumber total
  match pages.get? (actual - 1).toNat with
  | none => ⟨joinNL (renderLines lines maxTokens pageNumber), false, 1, 1⟩
  | some _ =>
    ⟨joinNL (renderLines lines maxTokens pageNumber), decide (actual < total), actual, total⟩

/-- `PageSnapshot.truncatedText` on the raw snapshot string itself. -/
def truncatedTextRaw (raw : String) (maxTokens : Nat) (pageNumber : Int) :
    TruncatedResult :=
  truncatedText (splitLines raw) maxTokens pageNumber

/-! ## Invariants of the page-assembly loop -/

/-- Total size of the elements with indices in `[a, b)`. -/
def sumSize (size : Nat × Nat → Nat) (elems : List (Nat × Nat)) (a b : Nat) : Nat :=
  (((elems.drop a).take (b - a)).map size).sum

theorem sumSize_self (size : Nat × Nat → Nat) (elems : List (Nat × Nat)) (a : Nat) :
    sumSize size elems a a = 0 := by
  simp [sumSize]

theorem sumSize_succ {size : Nat × Nat → Nat} {elems : List (Nat × Nat)} {a b : Nat}
    {el : Nat × Nat} (hab : a ≤ b) (hb : elems[b]? = some el) :
    sumSize size elems a (b + 1) = sumSize size elems a b + size el := by
  unfold sumSize
  have h1 : b + 1 - a = (b - a) + 1 := by omega
  rw [h1, List.take_succ]
  have h2 : (elems.drop a)[b - a]? = some el := by
    rw [List.getElem?_drop]
    rwa [Nat.add_sub_cancel' hab]
  rw [h2]
  simp

theorem sumSize_pos {size : Nat × Nat → Nat} {elems : List (Nat × Nat)} {a b : Nat}
    (hpos : ∀ el ∈ elems, 1 ≤ size el) (hab : a < b) (hb : b ≤ elems.length) :
    1 ≤ sumSize size elems a b := by
  unfold sumSize
  have ha : a < elems.length := by omega
  rw [List.drop_eq_getElem_cons ha]
  have h1 : b - a = (b - a - 1) + 1 := by omega
  rw [h1]
  simp only [List.take_succ_cons, List.map_cons, List.sum_cons]
  have := hpos _ (List.getElem_mem ha)
  omega

theorem mem_of_getElem?' {α : Type} {l : List α} {n : Nat} {a : α}
    (h : l[n]? = some a) : a ∈ l :=
  List.get?_mem (by rw [List.get?_eq_getElem?]; exact h)

theorem sumSize_mem_le {size : Nat × Nat → Nat} {elems : List (Nat × Nat)} {a b k : Nat}
    {el : Nat × Nat} (hak : a ≤ k) (hkb : k < b) (hk : elems[k]? = some el) :
    size el ≤ sumSize size elems a b := by
  unfold sumSize
  have hmem : el ∈ (elems.drop a).take (b - a) := by
    have h2 : ((elems.drop a).take (b - a))[k - a]? = some el := by
      rw [List.getElem?_take, if_pos (by omega), List.getElem?_drop]
      rwa [Nat.add_sub_cancel' hak]
    exact mem_of_getElem?' h2
  exact List.single_le_sum (fun x _ => Nat.zero_le x) _ (List.mem_map_of_mem size hmem)

/-- The pages emitted so far form a contiguous chain: starting at line `l`
and element `e`, each page begins where the previous one ended (in both line
and element numbering), contains at least one element, and ends at the start
line of its end element; the chain's running position ends at `(l', e')`. -/
def ChainFrom (elems : List (Nat × Nat)) :
    Nat → Nat → List PageInfo → Nat → Nat → Prop
  | l, e, [], l', e' => l' = l ∧ e' = e
  | l, e, pg :: ps, l', e' =>
    pg.startLine = l ∧ pg.startElement = e ∧ e < pg.endElement ∧
    (∃ el, elems[pg.endElement]? = some el ∧ pg.endLine = el.1) ∧
    ChainFrom elems pg.endLine pg.endElement ps l' e'

theorem chainFrom_append_one {elems : List (Nat × Nat)} {l0 e0 l e : Nat}
    {ps : List PageInfo} {pg : PageInfo} {el : Nat × Nat}
    (hch : ChainFrom elems l0 e0 ps l e)
    (h1 : pg.startLine = l) (h2 : pg.startElement = e) (h3 : e < pg.endElement)
    (h4 : elems[pg.endElement]? = some el) (h5 : pg.endLine = el.1) :
    ChainFrom elems l0 e0 (ps ++ [pg]) pg.endLine pg.endElement := by
  induction ps generalizing l0 e0 with
  | nil =>
    obtain ⟨hl, he⟩ := hch
    subst hl he
    exact ⟨h1, h2, h3, ⟨el, h4, h5⟩, rfl, rfl⟩
  | cons q ps ih =>
    obtain ⟨q1, q2, q3, q4, qch⟩ := hch
    exact ⟨q1, q2, q3, q4, ih qch⟩

/-- Invariant of the page-assembly loop after consuming the elements with
indices `< k`. -/
structure AsmInv (size : Nat × Nat → Nat) (maxW : Nat) (elems : List (Nat × Nat))
    (k : Nat) (st : AsmState) : Prop where
  chain : ChainFrom elems 0 0 st.pages st.currentPageStart st.currentElementIndex
  cei_le : st.currentElementIndex ≤ k
  cei_lt : 0 < k → st.currentElementIndex < k
  cwc : st.currentWordCount = sumSize size elems st.currentElementIndex k
  pageStart : (st.currentElementIndex = 0 ∧ st.currentPageStart = 0) ∨
    (∃ el, elems[st.currentElementIndex]? = some el ∧ st.currentPageStart = el.1)
  bounded : ∀ pg ∈ st.pages, pg.startElement + 1 < pg.endElement →
    sumSize size elems pg.startElement pg.endElement ≤ maxW
  cur_bounded : st.currentElementIndex + 1 < k → st.currentWordCount ≤ maxW

theorem asmLoop_inv {size : Nat × Nat → Nat} {maxW : Nat} {elems : List (Nat × Nat)}
    (hpos : ∀ el ∈ elems, 1 ≤ size el) :
    ∀ (rest : List (Nat × Nat)) (k : Nat) (st : AsmState),
      elems.drop k = rest → k ≤ elems.length → AsmInv size maxW elems k st →
      AsmInv size maxW elems elems.length (asmLoop size maxW k rest st) := by
  intro rest
  induction rest with
  | nil =>
    intro k st hdrop hk hinv
    have : elems.length = k := by
      have := List.drop_eq_nil_iff.mp hdrop
      omega
    rw [asmLoop, this]
    exact hinv
  | cons el rest' ih =>
    intro k st hdrop hk hinv
    have hgk : elems[k]? = some el := by
      have h1 := List.getElem?_drop elems k 0
      rw [hdrop] at h1
      simpa using h1.symm
    have hkl : k < elems.length := by
      have := List.getElem?_eq_some.mp hgk
      exact this.1
    have hdrop' : elems.drop (k + 1) = rest' := by
      have h1 := List.drop_drop 1 k elems
      rw [hdrop] at h1
      simpa using h1.symm
    have helmem : el ∈ elems := mem_of_getElem?' hgk
    rw [asmLoop]
    by_cases hcut : maxW < st.currentWordCount + size el ∧ 0 < st.currentWordCount
    · -- close the current page and start a new one with this element
      simp only [if_pos hcut]
      refine ih (k + 1) _ hdrop' (by omega) ?_
      have hceik : st.currentElementIndex < k := by
        rcases Nat.eq_or_lt_of_le hinv.cei_le with h | h
        · exfalso
          have := hinv.cwc
          rw [h, sumSize_self] at this
          omega
        · exact h
      constructor
      · exact chainFrom_append_one hinv.chain rfl rfl hceik hgk rfl
      · show k ≤ k + 1
        omega
      · intro _
        show k < k + 1
        omega
      · show size el = sumSize size elems k (k + 1)
        rw [sumSize_succ (Nat.le_refl k) hgk, sumSize_self]
        omega
      · exact Or.inr ⟨el, hgk, rfl⟩
      · intro pg hpg
        rcases List.mem_append.mp hpg with h | h
        · exact hinv.bounded pg h
        · rcases List.mem_singleton.mp h with rfl
          intro hlt
          show sumSize size elems st.currentElementIndex k ≤ maxW
          rw [← hinv.cwc]
          exact hinv.cur_bounded hlt
      · intro h
        exact absurd (show k + 1 < k + 1 from h) (by omega)
    · -- accumulate the element onto the current page
      simp only [if_neg hcut]
      refine ih (k + 1) _ hdrop' (by omega) ?_
      constructor
      · exact hinv.chain
      · exact Nat.le_succ_of_le hinv.cei_le
      · intro _
        exact Nat.lt_succ_of_le hinv.cei_le
      · show st.currentWordCount + size el = sumSize size elems st.currentElementIndex (k + 1)
        rw [sumSize_succ hinv.cei_le hgk, hinv.cwc]
      · exact hinv.pageStart
      · exact hinv.bounded
      · intro hlt
        have hlt' : st.currentElementIndex + 1 < k + 1 := hlt
        show st.currentWordCount + size el ≤ maxW
        rcases Nat.lt_or_ge maxW (st.currentWordCount + size el) with h | h
        · exfalso
          have hz : st.currentWordCount = 0 := by
            rcases Nat.eq_zero_or_pos st.currentWordCount with h0 | h0
            · exact h0
            · exact absurd ⟨h, h0⟩ hcut
          have hceik : st.currentElementIndex = k := by
            rcases Nat.eq_or_lt_of_le hinv.cei_le with h1 | h1
            · exact h1
            · exfalso
              have := sumSize_pos hpos h1 (Nat.le_of_lt hkl)
              rw [← hinv.cwc] at this
              omega
          omega

        · exact h

/-- Final shape of the built pages when the element list is nonempty: the
pages split as a chain followed by a final page that ends at line `n` and at
the last element, and every page with at least two elements fits the
budget. -/
theorem buildPagesWith_shape {size : Nat × Nat → Nat} {maxW : Nat}
    {elems : List (Nat × Nat)} {n : Nat}
    (hpos : ∀ el ∈ elems, 1 ≤ size el) (hne : elems ≠ []) :
    ∃ ps pg, buildPagesWith size maxW elems n = ps ++ [pg] ∧
      ChainFrom elems 0 0 ps pg.startLine pg.startElement ∧
      pg.startElement < pg.endElement ∧ pg.endElement = elems.length ∧ pg.endLine = n ∧
      (∀ q ∈ ps ++ [pg], q.startElement + 1 < q.endElement →
        sumSize size elems q.startElement q.endElement ≤ maxW) := by
  have hlen : 0 < elems.length := List.length_pos.mpr hne
  have hinv0 : AsmInv size maxW elems 0 ⟨[], 0, 0, 0⟩ := by
    constructor
    · exact ⟨rfl, rfl⟩
    · exact Nat.le_refl _
    · intro h; omega
    · rw [sumSize_self]
    · exact Or.inl ⟨rfl, rfl⟩
    · intro pg hpg; exact absurd hpg (List.not_mem_nil pg)
    · intro h; omega
  have hfin := asmLoop_inv hpos elems 0 ⟨[], 0, 0, 0⟩ (by simp) (Nat.zero_le _) hinv0
  set fin := asmLoop size maxW 0 elems ⟨[], 0, 0, 0⟩ with hfin_def
  have hceilt : fin.currentElementIndex < elems.length := hfin.cei_lt hlen
  have hcwcpos : 0 < fin.currentWordCount := by
    rw [hfin.cwc]
    exact sumSize_pos hpos hceilt (Nat.le_refl _)
  refine ⟨fin.pages, ⟨fin.currentPageStart, n, fin.currentElementIndex, elems.length⟩, ?_, ?_, ?_, ?_, ?_, ?_⟩
  · unfold buildPagesWith
    rw [← hfin_def, if_pos hcwcpos]
  · exact hfin.chain
  · exact hceilt
  · rfl
  · rfl
  · intro q hq
    rcases List.mem_append.mp hq with h | h
    · exact hfin.bounded q h
    · rcases List.mem_singleton.mp h with rfl
      intro hlt
      have := hfin.cur_bounded hlt
      rw [hfin.cwc] at this
      exact this

/-! ## Derived facts about the built pages -/

theorem elems_ord {lines : List String} {j j' : Nat} {a b : Nat × Nat}
    (hjj : j < j') (ha : (elementBoundaries lines)[j]? = some a)
    (hb : (elementBoundaries lines)[j']? = some b) : a.2 ≤ b.1 := by
  have hs := elementBoundaries_sorted lines
  rw [List.pairwise_iff_get] at hs
  obtain ⟨hja, hga⟩ := List.getElem?_eq_some.mp ha
  obtain ⟨hjb, hgb⟩ := List.getElem?_eq_some.mp hb
  have := hs ⟨j, hja⟩ ⟨j', hjb⟩ hjj
  simpa [List.get_eq_getElem, hga, hgb] using this

theorem elems_lt {lines : List String} {j : Nat} {el : Nat × Nat}
    (h : (elementBoundaries lines)[j]? = some el) : el.1 < el.2 :=
  (elementBoundaries_mem lines el (mem_of_getElem?' h)).1

theorem elems_le_len {lines : List String} {j : Nat} {el : Nat × Nat}
    (h : (elementBoundaries lines)[j]? = some el) : el.2 ≤ lines.length :=
  (elementBoundaries_mem lines el (mem_of_getElem?' h)).2.1

/-- The chain's running position is dominated by the start line of its
element. -/
def StartOK (elems : List (Nat × Nat)) (l e : Nat) : Prop :=
  ∃ el, elems[e]? = some el ∧ l ≤ el.1

/-- All positional facts about a chain of pages at once. -/
theorem chain_master {lines : List String} :
    ∀ {ps : List PageInfo} {l0 e0 l' e' : Nat},
      ChainFrom (elementBoundaries lines) l0 e0 ps l' e' →
      StartOK (elementBoundaries lines) l0 e0 →
      e0 ≤ e' ∧ l0 ≤ l' ∧ StartOK (elementBoundaries lines) l' e' ∧
      (∀ q ∈ ps,
        e0 ≤ q.startElement ∧ q.startElement < q.endElement ∧ q.endElement ≤ e' ∧
        l0 ≤ q.startLine ∧ q.startLine < q.endLine ∧ q.endLine ≤ l' ∧
        (∃ elS, (elementBoundaries lines)[q.startElement]? = some elS ∧ q.startLine ≤ elS.1) ∧
        (∃ elE, (elementBoundaries lines)[q.endElement]? = some elE ∧ q.endLine = elE.1)) := by
  intro ps
  induction ps with
  | nil =>
    intro l0 e0 l' e' hch hok
    obtain ⟨hl, he⟩ := hch
    subst hl he
    exact ⟨Nat.le_refl _, Nat.le_refl _, hok, fun q hq => absurd hq (List.not_mem_nil q)⟩
  | cons pg ps ih =>
    intro l0 e0 l' e' hch hok
    obtain ⟨h1, h2, h3, ⟨elE, hE, hEL⟩, hch'⟩ := hch
    obtain ⟨elS, hS, hSL⟩ := hok
    have hok' : StartOK (elementBoundaries lines) pg.endLine pg.endElement :=
      ⟨elE, hE, Nat.le_of_eq hEL⟩
    obtain ⟨ihe, ihl, ihok, ihmem⟩ := ih hch' hok'
    have hSE : elS.2 ≤ elE.1 := elems_ord (h2 ▸ h3) hS hE
    have hSlt : elS.1 < elS.2 := elems_lt hS
    have hline : l0 < pg.endLine := by omega
    refine ⟨by omega, by omega, ihok, ?_⟩
    intro q hq
    rcases List.mem_cons.mp hq with rfl | hq'
    · exact ⟨Nat.le_of_eq h2.symm, h2 ▸ h3, by omega, Nat.le_of_eq h1.symm,
        h1 ▸ hline, by omega, ⟨elS, h2 ▸ hS, h1 ▸ hSL⟩, ⟨elE, hE, hEL⟩⟩
    · obtain ⟨m1, m2, m3, m4, m5, m6, m7, m8⟩ := ihmem q hq'
      exact ⟨by omega, m2, m3, by omega, m5, m6, m7, m8⟩

/-- Pages in a chain are pairwise disjoint, in element and line numbering. -/
theorem chain_pairwise {lines : List String} :
    ∀ {ps : List PageInfo} {l0 e0 l' e' : Nat},
      ChainFrom (elementBoundaries lines) l0 e0 ps l' e' →
      StartOK (elementBoundaries lines) l0 e0 →
      List.Pairwise
        (fun p q : PageInfo => p.endElement ≤ q.startElement ∧ p.endLine ≤ q.startLine)
        ps := by
  intro ps
  induction ps with
  | nil => intro _ _ _ _ _ _; exact List.Pairwise.nil
  | cons pg ps ih =>
    intro l0 e0 l' e' hch hok
    obtain ⟨h1, h2, h3, ⟨elE, hE, hEL⟩, hch'⟩ := hch
    have hok' : StartOK (elementBoundaries lines) pg.endLine pg.endElement :=
      ⟨elE, hE, Nat.le_of_eq hEL⟩
    refine List.Pairwise.cons ?_ (ih hch' hok')
    intro q hq
    obtain ⟨_, _, _, ihmem⟩ := chain_master hch' hok'
    obtain ⟨m1, _, _, m4, _, _, _, _⟩ := ihmem q hq
    exact ⟨m1, m4⟩

theorem slice_append {lines : List String} {a b c : Nat} (hab : a ≤ b) (hbc : b ≤ c) :
    sliceLines lines a b ++ sliceLines lines b c = sliceLines lines a c := by
  unfold sliceLines
  have h1 : c - a = (b - a) + (c - b) := by omega
  rw [h1, List.take_add, List.drop_drop]
  have h2 : a + (b - a) = b := by omega
  rw [h2]

/-- Concatenating the line slices of a chain of pages yields the slice from
the chain's first line to its final running position. -/
theorem chain_join {lines : List String} :
    ∀ {ps : List PageInfo} {l0 e0 l' e' : Nat},
      ChainFrom (elementBoundaries lines) l0 e0 ps l' e' →
      StartOK (elementBoundaries lines) l0 e0 →
      (ps.map (fun q => sliceLines lines q.startLine q.endLine)).flatten =
        sliceLines lines l0 l' := by
  intro ps
  induction ps with
  | nil =>
    intro l0 e0 l' e' hch _
    obtain ⟨hl, he⟩ := hch
    subst hl
    simp [sliceLines]
  | cons pg ps ih =>
    intro l0 e0 l' e' hch hok
    have hmaster := chain_master hch hok
    obtain ⟨h1, h2, h3, ⟨elE, hE, hEL⟩, hch'⟩ := hch
    have hok' : StartOK (elementBoundaries lines) pg.endLine pg.endElement :=
      ⟨elE, hE, Nat.le_of_eq hEL⟩
    obtain ⟨_, _, _, hmem⟩ := hmaster
    obtain ⟨_, _, _, _, m5, m6, _, _⟩ :=
      hmem pg (List.mem_cons_self pg ps)
    show sliceLines lines pg.startLine pg.endLine ++
        (List.map (fun q => sliceLines lines q.startLine q.endLine) ps).flatten =
      sliceLines lines l0 l'
    rw [ih hch' hok', h1]
    exact slice_append (h1 ▸ Nat.le_of_lt m5) m6

/-- Every element index covered by a chain lies in one of its pages. -/
theorem chain_elem_exists {elems : List (Nat × Nat)} :
    ∀ {ps : List PageInfo} {l0 e0 l' e' : Nat},
      ChainFrom elems l0 e0 ps l' e' →
      ∀ k, e0 ≤ k → k < e' →
        ∃ (i : Nat) (pg : PageInfo),
          ps[i]? = some pg ∧ pg.startElement ≤ k ∧ k < pg.endElement := by
  intro ps
  induction ps with
  | nil =>
    intro l0 e0 l' e' hch k hk1 hk2
    obtain ⟨_, he⟩ := hch
    omega
  | cons pg ps ih =>
    intro l0 e0 l' e' hch k hk1 hk2
    obtain ⟨h1, h2, h3, _, hch'⟩ := hch
    by_cases hk : k < pg.endElement
    · refine ⟨0, pg, ?_, ?_, hk⟩
      · rw [List.getElem?_cons_zero]
      · omega
    · obtain ⟨i, q, hq, hq1, hq2⟩ := ih hch' k (by omega) hk2
      refine ⟨i + 1, q, ?_, hq1, hq2⟩
      rw [List.getElem?_cons_succ]
      exact hq

/-- Each element has at least one word (its start line is non-blank). -/
theorem elementWords_pos (lines : List String) :
    ∀ el ∈ elementBoundaries lines, 1 ≤ elementWords lines el := by
  intro el hel
  obtain ⟨h1, _, h3⟩ := elementBoundaries_mem lines el hel
  unfold elementWords
  have hmem : el.1 ∈ List.range' el.1 (el.2 - el.1) := by
    rw [List.mem_range'_1]
    omega
  have hmm := List.mem_map_of_mem (fun j => wordCount (lines.getD j "")) hmem
  have hsum := List.single_le_sum (fun x _ => Nat.zero_le x) _ hmm
  simp only at hsum
  have h4 := one_le_wordCount h3
  omega


/-- Structure of the word-variant pages for a nonempty element list: the list
splits as `ps ++ [pgL]`; pages are line- and element-disjoint in order; each
page starts no later than its first element's start line and, except for the
final page (which ends at the end of input and at the last element), ends at
the start line of its end element; every element index lies in some page; and
every page holding at least two elements fits the budget. -/
theorem pages_structure (lines : List String) (W : Nat)
    (hne : elementBoundaries lines ≠ []) :
    ∃ ps pgL, buildPages lines W = ps ++ [pgL] ∧
      pgL.endElement = (elementBoundaries lines).length ∧ pgL.endLine = lines.length ∧
      (∀ pg ∈ buildPages lines W,
        pg.startElement < pg.endElement ∧ pg.startLine < pg.endLine ∧
        ∃ elS, (elementBoundaries lines)[pg.startElement]? = some elS ∧
          pg.startLine ≤ elS.1) ∧
      List.Pairwise
        (fun p q : PageInfo => p.endElement ≤ q.startElement ∧ p.endLine ≤ q.startLine)
        (buildPages lines W) ∧
      (∀ k, k < (elementBoundaries lines).length →
        ∃ (i : Nat) (pg : PageInfo), (buildPages lines W)[i]? = some pg ∧
          pg.startElement ≤ k ∧ k < pg.endElement) ∧
      (∀ pg ∈ buildPages lines W, pg.startElement + 1 < pg.endElement →
        sumSize (elementWords lines) (elementBoundaries lines)
          pg.startElement pg.endElement ≤ W) ∧
      (∀ pg ∈ buildPages lines W, pg.endElement < (elementBoundaries lines).length →
        ∃ elE, (elementBoundaries lines)[pg.endElement]? = some elE ∧
          pg.endLine = elE.1) ∧
      ((buildPages lines W).map
        (fun q => sliceLines lines q.startLine q.endLine)).flatten = lines := by
  obtain ⟨ps, pgL, heq0, hch, hSE, hEE, hEL, hbnd⟩ :=
    buildPagesWith_shape (elementWords_pos lines) hne
  have heq : buildPages lines W = ps ++ [pgL] := heq0
  have hlen0 : 0 < (elementBoundaries lines).length := List.length_pos.mpr hne
  obtain ⟨el0, hel0⟩ : ∃ el0, (elementBoundaries lines)[0]? = some el0 := by
    cases h : (elementBoundaries lines)[0]? with
    | none =>
      exfalso
      rw [List.getElem?_eq_none_iff] at h
      omega
    | some el0 => exact ⟨el0, rfl⟩
  have hok0 : StartOK (elementBoundaries lines) 0 0 := ⟨el0, hel0, Nat.zero_le _⟩
  obtain ⟨hm1, hm2, hokL, hmem⟩ := chain_master hch hok0
  obtain ⟨elL, helL, helLle⟩ := hokL
  have helLlt : elL.1 < elL.2 := elems_lt helL
  have helLlen : elL.2 ≤ lines.length := elems_le_len helL
  have hpgLlines : pgL.startLine < pgL.endLine := by
    rw [hEL]; omega
  refine ⟨ps, pgL, heq, hEE, hEL, ?_, ?_, ?_, ?_, ?_, ?_⟩
  · -- per-page bounds
    intro pg hpg
    rw [heq] at hpg
    rcases List.mem_append.mp hpg with h | h
    · obtain ⟨_, m2, _, _, m5, _, m7, _⟩ := hmem pg h
      exact ⟨m2, m5, m7⟩
    · rcases List.mem_singleton.mp h with rfl
      exact ⟨hSE, hpgLlines, elL, helL, helLle⟩
  · -- pairwise disjointness
    rw [heq, List.pairwise_append]
    refine ⟨chain_pairwise hch hok0, List.pairwise_singleton _ _, ?_⟩
    intro p hp q hq
    rcases List.mem_singleton.mp hq with rfl
    obtain ⟨_, _, m3, _, _, m6, _, _⟩ := hmem p hp
    exact ⟨m3, m6⟩
  · -- element cover
    intro k hk
    by_cases hkS : k < pgL.startElement
    · obtain ⟨i, pg, hpgi, h1, h2⟩ := chain_elem_exists hch k (Nat.zero_le _) hkS
      refine ⟨i, pg, ?_, h1, h2⟩
      rw [heq]
      have hilen : i < ps.length := (List.getElem?_eq_some.mp hpgi).1
      rw [List.getElem?_append, if_pos hilen]
      exact hpgi
    · refine ⟨ps.length, pgL, ?_, by omega, by omega⟩
      rw [heq]
      exact List.getElem?_concat_length ps pgL
  · -- budget bound
    intro pg hpg
    rw [heq] at hpg
    exact hbnd pg hpg
  · -- non-final pages end at their end element's start line
    intro pg hpg hlt
    rw [heq] at hpg
    rcases List.mem_append.mp hpg with h | h
    · obtain ⟨_, _, _, _, _, _, _, m8⟩ := hmem pg h
      exact m8
    · rcases List.mem_singleton.mp h with rfl
      omega
  · -- the slices of the pages concatenate to the whole input
    rw [heq, List.map_append, List.flatten_append]
    rw [chain_join hch hok0]
    simp only [List.map_cons, List.map_nil, List.flatten_cons, List.flatten_nil,
      List.append_nil]
    rw [hEL]
    have h1 : pgL.startLine ≤ lines.length := by omega
    rw [slice_append (Nat.zero_le _) h1]
    unfold sliceLines
    simp

/-! ## Claim C1: pages partition the line sequence -/

/-- C1 counterexample: for the raw snapshot `"\n"` (two blank lines) and the
positive budget `maxTokens = 20000`, the paginator computes no pages at all,
so concatenating the pages' line ranges yields `[]` and drops both lines of
the input — the claimed partition fails on inputs with no non-blank line. -/
theorem c1_counterexample :
    ((buildPages (splitLines "\n") (maxWordsPerPage 20000)).map
        (fun q => sliceLines (splitLines "\n") q.startLine q.endLine)).flatten ≠
      splitLines "\n" := by
  decide

/-- C1 (amended): for every raw snapshot text containing at least one
non-blank line and every budget, the pages computed by the paginator (the
shared element/page core of `PageSnapshot.truncatedText` and the
`browser_snapshot` truncation path) partition the input's line sequence:
concatenating the pages' line ranges reproduces the original lines exactly
once, in order, with no line duplicated or dropped.  (Blank-only inputs
yield zero pages and fall to the empty-snapshot branch.) -/
theorem c1_pages_partition (raw : String) (maxTokens : Nat)
    (h : ∃ l ∈ splitLines raw, isBlank l = false) :
    ((buildPages (splitLines raw) (maxWordsPerPage maxTokens)).map
        (fun q => sliceLines (splitLines raw) q.startLine q.endLine)).flatten =
      splitLines raw := by
  have hne : elementBoundaries (splitLines raw) ≠ [] := by
    apply elementBoundaries_ne_nil
    obtain ⟨l, hl, hlb⟩ := h
    obtain ⟨k, hk, hkeq⟩ := List.getElem_of_mem hl
    refine ⟨k, hk, ?_⟩
    rw [List.getD_eq_getElem?_getD, List.getElem?_eq_getElem hk, Option.getD_some, hkeq]
    exact hlb
  obtain ⟨_, _, _, _, _, _, _, _, _, _, hflat⟩ :=
    pages_structure (splitLines raw) (maxWordsPerPage maxTokens) hne
  exact hflat

theorem c1_pages_partition_witness :
    (∃ l ∈ splitLines "- a\n- b", isBlank l = false) ∧
      ((buildPages (splitLines "- a\n- b") (maxWordsPerPage 20000)).map
          (fun q => sliceLines (splitLines "- a\n- b") q.startLine q.endLine)).flatten =
        splitLines "- a\n- b" :=
  ⟨by decide, c1_pages_partition "- a\n- b" 20000 (by decide)⟩

/-! ## Claim C2: no element is split across pages -/

/-- C2: every detected element lies entirely within exactly one page's line
range, and an element whose own word count exceeds the budget is placed alone
on its own page (it is never dropped and never truncated mid-element). -/
theorem c2_elements_never_split (raw : String) (maxTokens : Nat)
    (k : Nat) (el : Nat × Nat)
    (hkel : (elementBoundaries (splitLines raw))[k]? = some el) :
    (∃! i : Nat, ∃ pg : PageInfo,
        (buildPages (splitLines raw) (maxWordsPerPage maxTokens))[i]? = some pg ∧
        pg.startLine ≤ el.1 ∧ el.2 ≤ pg.endLine) ∧
      (maxWordsPerPage maxTokens < elementWords (splitLines raw) el →
        ∃ pg ∈ buildPages (splitLines raw) (maxWordsPerPage maxTokens),
          pg.startElement = k ∧ pg.endElement = k + 1) := by
  have hk : k < (elementBoundaries (splitLines raw)).length :=
    (List.getElem?_eq_some.mp hkel).1
  have hne : elementBoundaries (splitLines raw) ≠ [] := by
    intro hcon
    rw [hcon] at hk
    simp at hk
  obtain ⟨ps, pgL, heq, hEE, hEL, hpage, hpair, hcover, hbudget, hend, _⟩ :=
    pages_structure (splitLines raw) (maxWordsPerPage maxTokens) hne
  have hellt : el.1 < el.2 := elems_lt hkel
  have hellen : el.2 ≤ (splitLines raw).length := elems_le_len hkel
  have hpairA : List.Pairwise
      (fun p q : PageInfo => p.endElement ≤ q.startElement ∧ p.endLine ≤ q.startLine)
      (ps ++ [pgL]) := heq ▸ hpair
  have hpgLmem : pgL ∈ buildPages (splitLines raw) (maxWordsPerPage maxTokens) := by
    rw [heq]
    exact List.mem_append_right ps (List.mem_singleton_self pgL)
  have hpgLse : pgL.startElement < pgL.endElement := (hpage pgL hpgLmem).1
  -- a page covering element `k` also contains its line range
  have hcontain : ∀ (i : Nat) (pg : PageInfo),
      (buildPages (splitLines raw) (maxWordsPerPage maxTokens))[i]? = some pg →
      pg.startElement ≤ k → k < pg.endElement →
      pg.startLine ≤ el.1 ∧ el.2 ≤ pg.endLine := by
    intro i pg hpgi h1 h2
    have hpgmem : pg ∈ buildPages (splitLines raw) (maxWordsPerPage maxTokens) :=
      mem_of_getElem?' hpgi
    obtain ⟨hse, hsl, elS, helS, helSle⟩ := hpage pg hpgmem
    constructor
    · rcases Nat.eq_or_lt_of_le h1 with hceq | hclt
      · rw [hceq, hkel] at helS
        have h3 : elS = el := Option.some_inj.mp helS.symm
        rw [h3] at helSle
        exact helSle
      · have hord := elems_ord hclt helS hkel
        have := elems_lt helS
        omega
    · by_cases hfin : pg.endElement < (elementBoundaries (splitLines raw)).length
      · obtain ⟨elE, helE, helEL⟩ := hend pg hpgmem hfin
        have := elems_ord h2 hkel helE
        omega
      · have hpgL : pg = pgL := by
          have hmem' : pg ∈ ps ++ [pgL] := heq ▸ hpgmem
          rcases List.mem_append.mp hmem' with hmem | hmem
          · exfalso
            rw [List.pairwise_append] at hpairA
            obtain ⟨_, _, hcross⟩ := hpairA
            have := (hcross pg hmem pgL (List.mem_singleton_self pgL)).1
            omega
          · exact List.mem_singleton.mp hmem
        rw [hpgL, hEL]
        exact hellen
  -- pages are ordered by line ranges
  have hdisj : ∀ (i j : Nat) (pgi pgj : PageInfo), i < j →
      (buildPages (splitLines raw) (maxWordsPerPage maxTokens))[i]? = some pgi →
      (buildPages (splitLines raw) (maxWordsPerPage maxTokens))[j]? = some pgj →
      pgi.endLine ≤ pgj.startLine := by
    intro i j pgi pgj hij hi hj
    have hp := hpair
    rw [List.pairwise_iff_get] at hp
    obtain ⟨hi', hgi⟩ := List.getElem?_eq_some.mp hi
    obtain ⟨hj', hgj⟩ := List.getElem?_eq_some.mp hj
    have := hp ⟨i, hi'⟩ ⟨j, hj'⟩ hij
    rw [List.get_eq_getElem, List.get_eq_getElem] at this
    simp only [hgi, hgj] at this
    exact this.2
  obtain ⟨i, pg, hpgi, h1, h2⟩ := hcover k hk
  have hc := hcontain i pg hpgi h1 h2
  constructor
  · refine ⟨i, ⟨pg, hpgi, hc.1, hc.2⟩, ?_⟩
    intro j hj
    obtain ⟨pg', hpgj, hj1, hj2⟩ := hj
    rcases Nat.lt_trichotomy j i with hji | hji | hji
    · exfalso
      have := hdisj j i pg' pg hji hpgj hpgi
      omega
    · exact hji
    · exfalso
      have := hdisj i j pg pg' hji hpgi hpgj
      omega
  · intro hover
    have hpgmem : pg ∈ buildPages (splitLines raw) (maxWordsPerPage maxTokens) :=
      mem_of_getElem?' hpgi
    have hone : pg.endElement = pg.startElement + 1 := by
      by_contra hne2
      have hlt2 : pg.startElement + 1 < pg.endElement := by
        have := (hpage pg hpgmem).1
        omega
      have hb := hbudget pg hpgmem hlt2
      have hle := @sumSize_mem_le (elementWords (splitLines raw))
        (elementBoundaries (splitLines raw)) pg.startElement pg.endElement k el h1 h2 hkel
      omega
    refine ⟨pg, hpgmem, ?_, ?_⟩ <;> omega

theorem c2_elements_never_split_witness :
    ((elementBoundaries (splitLines "- a\n- b"))[0]? = some (0, 1)) ∧
      ((∃! i : Nat, ∃ pg : PageInfo,
          (buildPages (splitLines "- a\n- b") (maxWordsPerPage 20000))[i]? = some pg ∧
          pg.startLine ≤ (0, 1).1 ∧ (0, 1).2 ≤ pg.endLine) ∧
        (maxWordsPerPage 20000 < elementWords (splitLines "- a\n- b") (0, 1) →
          ∃ pg ∈ buildPages (splitLines "- a\n- b") (maxWordsPerPage 20000),
            pg.startElement = 0 ∧ pg.endElement = 0 + 1)) :=
  ⟨by decide, c2_elements_never_split "- a\n- b" 20000 0 (0, 1) (by decide)⟩

/-! ## Claim C3: the trailing banner -/

/-- The C3 scenario input, one element per line: 300 list-item lines, each
holding 100 whitespace-separated words (the dash marker and 99 further
words), 30000 words in total. -/
def itemLine : String := String.intercalate " " ("-" :: List.replicate 99 "word")

/-- The 300 scenario lines. -/
def scenarioLines : List String := List.replicate 300 itemLine

set_option maxRecDepth 100000 in
/-- C3: the trailing banner is appended exactly when the selected page is
strictly before the last page, and it states the current page number, the
total page count, the number of elements shown (`endElement - startElement`),
the number of elements remaining on later pages, and the literal instruction
to request page `currentPage + 1`.  In the concrete scenario of 300
list-item elements of 100 words each with `maxTokens = 20000` (a 15000-word
page budget), there are two pages, page 1 holds exactly the first 150
elements, and its banner instructs requesting `page: 2`. -/
theorem c3_trailing_banner :
    (∀ (lines : List String) (maxTokens : Nat) (p : Int),
      match selectedPage lines maxTokens p with
      | none =>
        renderLines lines maxTokens p =
          ["- Page Snapshot (Page 1 of 1)", "```yaml", "", "```"]
      | some pg =>
        renderLines lines maxTokens p =
          [s!"- Page Snapshot (Page {clampPage p (totalPagesOf (buildPages lines (maxWordsPerPage maxTokens)))} of {totalPagesOf (buildPages lines (maxWordsPerPage maxTokens))})",
            "```yaml"]
          ++ (match findContext lines pg.startLine with
              | some c => [c]
              | none => [])
          ++ [joinNL (sliceLines lines pg.startLine pg.endLine)]
          ++ (if clampPage p (totalPagesOf (buildPages lines (maxWordsPerPage maxTokens))) <
                (totalPagesOf (buildPages lines (maxWordsPerPage maxTokens)) : Int) then
              bannerLines
                (clampPage p (totalPagesOf (buildPages lines (maxWordsPerPage maxTokens))))
                (totalPagesOf (buildPages lines (maxWordsPerPage maxTokens)))
                (pg.endElement - pg.startElement)
                ((elementBoundaries lines).length - pg.endElement)
            else [])
          ++ ["```"]) ∧
    buildPages scenarioLines (maxWordsPerPage 20000) =
      [⟨0, 150, 0, 150⟩, ⟨150, 300, 150, 300⟩] ∧
    (truncatedText scenarioLines 20000 1).totalPages = 2 ∧
    (truncatedText scenarioLines 20000 1).currentPage = 1 ∧
    (truncatedText scenarioLines 20000 1).isTruncated = true ∧
    "# To load the next page, use browser_snapshot with page: 2" ∈
      renderLines scenarioLines 20000 1 ∧
    "# 150 elements shown on this page" ∈ renderLines scenarioLines 20000 1 ∧
    "# 150 more elements on remaining pages" ∈ renderLines scenarioLines 20000 1 := by
  constructor
  · intro lines maxTokens p
    cases hsel : selectedPage lines maxTokens p with
    | none =>
      unfold selectedPage at hsel
      unfold renderLines
      simp only [hsel]
    | some pg =>
      unfold selectedPage at hsel
      unfold renderLines
      simp only [hsel]
  · refine ⟨by decide, by decide, by decide, by decide, by decide, by decide, by decide⟩

/-! ## Claims C5, C6, C10: budgets, page selection and result invariants -/

theorem one_le_totalPagesOf (pages : List PageInfo) : 1 ≤ totalPagesOf pages := by
  unfold totalPagesOf
  split <;> omega

theorem clampPage_bounds {p : Int} {total : Nat} (h : 1 ≤ total) :
    1 ≤ clampPage p total ∧ clampPage p total ≤ (total : Int) := by
  unfold clampPage
  constructor
  · apply le_min
    · exact le_max_left 1 p
    · omega
  · exact min_le_right _ _

/-- The page lookup comes back empty only when there are no pages at all. -/
theorem pages_nil_of_get?_none {lines : List String} {maxTokens : Nat} {p : Int}
    (h : (buildPages lines (maxWordsPerPage maxTokens)).get?
      (clampPage p (totalPagesOf (buildPages lines (maxWordsPerPage maxTokens))) - 1).toNat =
      none) :
    buildPages lines (maxWordsPerPage maxTokens) = [] := by
  by_contra hnil
  have hlen : 0 < (buildPages lines (maxWordsPerPage maxTokens)).length :=
    List.length_pos.mpr hnil
  have htot : totalPagesOf (buildPages lines (maxWordsPerPage maxTokens)) =
      (buildPages lines (maxWordsPerPage maxTokens)).length := by
    unfold totalPagesOf
    rw [if_neg (by omega)]
  obtain ⟨h1, h2⟩ := @clampPage_bounds p
    (totalPagesOf (buildPages lines (maxWordsPerPage maxTokens)))
    (one_le_totalPagesOf _)
  rw [List.get?_eq_getElem?, List.getElem?_eq_none_iff] at h
  omega

theorem truncatedText_totalPages (lines : List String) (maxTokens : Nat) (p : Int) :
    (truncatedText lines maxTokens p).totalPages =
      totalPagesOf (buildPages lines (maxWordsPerPage maxTokens)) := by
  unfold truncatedText
  cases h : (buildPages lines (maxWordsPerPage maxTokens)).get?
      (clampPage p (totalPagesOf (buildPages lines (maxWordsPerPage maxTokens))) - 1).toNat with
  | none =>
    simp only [h]
    rw [pages_nil_of_get?_none h]
    rfl
  | some pg => simp only [h]

theorem truncatedText_currentPage (lines : List String) (maxTokens : Nat) (p : Int) :
    (truncatedText lines maxTokens p).currentPage =
      clampPage p (totalPagesOf (buildPages lines (maxWordsPerPage maxTokens))) := by
  unfold truncatedText
  cases h : (buildPages lines (maxWordsPerPage maxTokens)).get?
      (clampPage p (totalPagesOf (buildPages lines (maxWordsPerPage maxTokens))) - 1).toNat with
  | none =>
    simp only [h]
    show (1 : Int) = clampPage p (totalPagesOf (buildPages lines (maxWordsPerPage maxTokens)))
    rw [pages_nil_of_get?_none h]
    show (1 : Int) = clampPage p 1
    unfold clampPage
    omega
  | some pg => simp only [h]

/-- `truncatedText` depends on the requested page number only through the
clamped page. -/
theorem truncatedText_congr {lines : List String} {maxTokens : Nat} {p p' : Int}
    (h : clampPage p (totalPagesOf (buildPages lines (maxWordsPerPage maxTokens))) =
      clampPage p' (totalPagesOf (buildPages lines (maxWordsPerPage maxTokens)))) :
    truncatedText lines maxTokens p = truncatedText lines maxTokens p' := by
  simp only [truncatedText, renderLines, h]

/-- C10: for every raw snapshot text, token budget and requested page, the
returned record satisfies `totalPages ≥ 1`, `1 ≤ currentPage ≤ totalPages`,
and `isTruncated = true` exactly when `currentPage < totalPages` (so the
last page and the empty-input page report `isTruncated = false`). -/
theorem c10_result_invariants (raw : String) (maxTokens : Nat) (p : Int) :
    1 ≤ (truncatedTextRaw raw maxTokens p).totalPages ∧
    1 ≤ (truncatedTextRaw raw maxTokens p).currentPage ∧
    (truncatedTextRaw raw maxTokens p).currentPage ≤
      ((truncatedTextRaw raw maxTokens p).totalPages : Int) ∧
    ((truncatedTextRaw raw maxTokens p).isTruncated = true ↔
      (truncatedTextRaw raw maxTokens p).currentPage <
        ((truncatedTextRaw raw maxTokens p).totalPages : Int)) := by
  unfold truncatedTextRaw
  obtain ⟨h1, h2⟩ := @clampPage_bounds p
    (totalPagesOf (buildPages (splitLines raw) (maxWordsPerPage maxTokens)))
    (one_le_totalPagesOf _)
  have htot := truncatedText_totalPages (splitLines raw) maxTokens p
  have hcur := truncatedText_currentPage (splitLines raw) maxTokens p
  refine ⟨?_, ?_, ?_, ?_⟩
  · rw [htot]
    exact one_le_totalPagesOf _
  · rw [hcur]
    exact h1
  · rw [hcur, htot]
    exact h2
  · rw [hcur, htot]
    unfold truncatedText
    cases h : (buildPages (splitLines raw) (maxWordsPerPage maxTokens)).get?
        (clampPage p (totalPagesOf (buildPages (splitLines raw) (maxWordsPerPage maxTokens))) -
          1).toNat with
    | none =>
      simp only [h]
      have hnil := pages_nil_of_get?_none h
      rw [hnil] at h1 h2
      have htot1 : totalPagesOf ([] : List PageInfo) = 1 := rfl
      rw [htot1] at h1 h2
      rw [hnil, htot1]
      simp only [Bool.false_eq_true, false_iff]
      omega
    | some pg =>
      simp only [h, decide_eq_true_eq]

/-- C5 counterexample: at `maxTokens = 20000` the `PageSnapshot.truncatedText`
variant embedded in `tools/evaluate.ts` uses the inverse ratio
(`wordsPerToken = 1 / 0.75`), giving a 26666-word budget instead of the
claimed `floor(20000 * 0.75) = 15000`. -/
theorem c5_counterexample :
    evaluateVariantMaxWords 20000 ≠ maxWordsPerPage 20000 := by decide

/-- C5 (amended): the default/config-driven truncation paths
(`PageSnapshot.truncatedText` in `pageSnapshot.ts` and the `browser_snapshot`
handler in `snapshot.ts`) derive their word budget as
`floor(maxTokens * 0.75)`, and that budget is the one the pagination pipeline
uses; the older `PageSnapshot.truncatedText` variant in `tools/evaluate.ts`
instead uses `floor(maxTokens / 0.75)` — at `maxTokens = 20000` the former
is 15000 words and the latter 26666 words. -/
theorem c5_word_budget :
    (∀ maxTokens : Nat, maxWordsPerPage maxTokens = maxTokens * 3 / 4) ∧
    (∀ (lines : List String) (maxTokens : Nat) (p : Int),
      (truncatedText lines maxTokens p).totalPages =
        totalPagesOf (buildPages lines (maxTokens * 3 / 4))) ∧
    maxWordsPerPage 20000 = 15000 ∧
    evaluateVariantMaxWords 20000 = 26666 := by
  refine ⟨fun _ => rfl, ?_, by decide, by decide⟩
  intro lines maxTokens p
  exact truncatedText_totalPages lines maxTokens p

/-- C6: page selection never fails — a requested page of 0 or below behaves
as page 1, a requested page beyond `totalPages` behaves as `totalPages`, and
an empty raw snapshot yields exactly one page with empty content,
`totalPages = 1`, and no trailing more-content banner. -/
theorem c6_page_selection :
    (∀ (raw : String) (maxTokens : Nat) (p : Int), p ≤ 0 →
      truncatedTextRaw raw maxTokens p = truncatedTextRaw raw maxTokens 1) ∧
    (∀ (raw : String) (maxTokens : Nat) (p : Int),
      ((truncatedTextRaw raw maxTokens 1).totalPages : Int) ≤ p →
      truncatedTextRaw raw maxTokens p =
        truncatedTextRaw raw maxTokens ((truncatedTextRaw raw maxTokens 1).totalPages : Int)) ∧
    (∀ (maxTokens : Nat) (p : Int),
      truncatedTextRaw "" maxTokens p =
        ⟨"- Page Snapshot (Page 1 of 1)\n```yaml\n\n```", false, 1, 1⟩ ∧
      "# MORE CONTENT AVAILABLE" ∉ renderLines (splitLines "") maxTokens p) := by
  refine ⟨?_, ?_, ?_⟩
  · intro raw maxTokens p hp
    apply truncatedText_congr
    have := one_le_totalPagesOf (buildPages (splitLines raw) (maxWordsPerPage maxTokens))
    unfold clampPage
    omega
  · intro raw maxTokens p hp
    unfold truncatedTextRaw at hp ⊢
    rw [truncatedText_totalPages] at hp ⊢
    apply truncatedText_congr
    have := one_le_totalPagesOf (buildPages (splitLines raw) (maxWordsPerPage maxTokens))
    unfold clampPage
    omega
  · intro maxTokens p
    constructor
    · rfl
    · show "# MORE CONTENT AVAILABLE" ∉
        (["- Page Snapshot (Page 1 of 1)", "```yaml", "", "```"] : List String)
      decide

theorem c6_page_selection_witness :
    ((-5 : Int) ≤ 0 ∧
      truncatedTextRaw "- a\n- b" 20000 (-5) = truncatedTextRaw "- a\n- b" 20000 1) ∧
    (((truncatedTextRaw "- a\n- b" 20000 1).totalPages : Int) ≤ 1000 ∧
      truncatedTextRaw "- a\n- b" 20000 1000 =
        truncatedTextRaw "- a\n- b" 20000
          ((truncatedTextRaw "- a\n- b" 20000 1).totalPages : Int)) :=
  ⟨⟨by decide, c6_page_selection.1 "- a\n- b" 20000 (-5) (by decide)⟩,
    ⟨by decide, c6_page_selection.2.1 "- a\n- b" 20000 1000 (by decide)⟩⟩

/-! ## The Tab coordination layer (`src/unnamed/part_000`)

The asynchronous parts are embedded as pure functions over the data a `Tab`
holds when the corresponding code runs: the modal-state queue, the recent
console messages (already rendered by their `toString`), the download
records, the page's url/title, and the text `_snapshotForAI` would produce.
Real-time elements (the 3-second download grace window, the 500 ms settle
delay, the race against a modal appearing mid-capture) are modelled by
oracle parameters recording which event won. -/

/-- The two modal-state kinds (`dialog`, `fileChooser`). -/
inductive ModalKind where
  | dialog
  | fileChooser
deriving DecidableEq

/-- One queued modal state: its kind and human-readable description. -/
structure ModalStateM where
  kind : ModalKind
  description : String
deriving DecidableEq

/-- One download record of `Tab._downloads`. -/
structure DownloadM where
  suggestedFilename : String
  outputFile : String
  finished : Bool
deriving DecidableEq

/-- The data of a `Tab` visible to the snapshot-capture path. `toolNameFor`
models the `context.tools` lookup for the tool that clears a modal kind. -/
structure TabView where
  modalStates : List ModalStateM
  toolNameFor : ModalKind → Option String
  recentConsoleMessages : List String
  downloads : List DownloadM
  url : String
  title : String
  rawSnapshot : String

/-- `trim(text, maxLength)` (`part_000` lines 485-489), at character level. -/
def trimTo (maxLength : Nat) (text : String) : String :=
  if text.data.length ≤ maxLength then text
  else String.mk (text.data.take maxLength) ++ "..."

/-- `Tab.modalStatesMarkdown` (`part_000` lines 87-96): the header, the
no-modal line when the queue is empty, and one line per queued state naming
the tool that can clear it (`undefined` when no tool matches, as the
template literal renders a missing tool). -/
def modalStatesMarkdown (tab : TabView) : List String :=
  ["### Modal state"]
  ++ (if tab.modalStates.length = 0 then ["- There is no modal state present"] else [])
  ++ tab.modalStates.map (fun st =>
      "- [" ++ st.description ++ "]: can be handled by the \"" ++
        ((tab.toolNameFor st.kind).getD "undefined") ++ "\" tool")

/-- `Tab._takeRecentConsoleMarkdown` (`part_000` lines 178-185). -/
def takeRecentConsoleMarkdown (tab : TabView) : List String :=
  if tab.recentConsoleMessages.length = 0 then []
  else "### New console messages" ::
    tab.recentConsoleMessages.map (fun m => "- " ++ trimTo 100 m) ++ [""]

/-- `Tab._listDownloadsMarkdown` (`part_000` lines 187-200). -/
def listDownloadsMarkdown (tab : TabView) : List String :=
  if tab.downloads.length = 0 then []
  else "### Downloads" ::
    tab.downloads.map (fun d =>
      if d.finished then
        "- Downloaded file " ++ d.suggestedFilename ++ " to " ++ d.outputFile
      else "- Downloading file " ++ d.suggestedFilename ++ " ...") ++ [""]

/-- `Tab._captureFullSnapshot` (`part_000` lines 215-239): with any modal
state active, only the modal-state markdown is returned and the
accessibility tree is not captured; otherwise console and download markdown
precede the page-state block.  The race against a modal appearing
mid-capture is modelled by its completed outcome. -/
def captureFullSnapshot (tab : TabView) : String :=
  if tab.modalStates.length ≠ 0 then joinNL (modalStatesMarkdown tab)
  else
    joinNL (takeRecentConsoleMarkdown tab ++ listDownloadsMarkdown tab ++
      ["### Page state",
       "- Page URL: " ++ tab.url,
       "- Page Title: " ++ tab.title,
       "- Page Snapshot:",
       "```yaml",
       tab.rawSnapshot,
       "```"])

/-- The regex `/```yaml\n([\s\S]*?)\n```/`: at the first position where the
whole pattern can match, the shortest capture between the fences. -/
def extractYaml (s : String) : Option String :=
  let cs := s.data
  let openPat := "```yaml\n".data
  let closePat := "\n```".data
  (List.range (cs.length + 1)).findSome? (fun i =>
    if openPat.isPrefixOf (cs.drop i) then
      let after := cs.drop (i + openPat.length)
      ((List.range (after.length + 1)).find?
          (fun j => closePat.isPrefixOf (after.drop j))).map
        (fun j => String.mk (after.take j))
    else none)

/-- `contextPrefix.trim()`: JavaScript `String.prototype.trim` at character
level. -/
def jsTrim (s : String) : String :=
  String.mk (((s.data.dropWhile isWS).reverse.dropWhile isWS).reverse)

/-- The empty-snapshot text of `Tab.captureTruncatedSnapshot`
(`part_000` lines 340-352). -/
def emptyTruncatedSnapshot (tab : TabView) : String :=
  joinNL ["### Page state",
    "- Page URL: " ++ tab.url,
    "- Page Title: " ++ tab.title,
    "- Page Snapshot:",
    "```yaml",
    "",
    "```"]

/-- `Tab.captureTruncatedSnapshot(maxTokens, pageNum)` (`part_000` lines
241-404): capture the full snapshot, extract the yaml block, and paginate it
with the same boundary scan and page assembly, with element sizes given by
the `cl100k_base` encoder — modelled by the abstract token counter `tok`.
Unlike the word variant, the budget is `maxTokens` itself, the page-snapshot
header keeps the plain form on a single page, and the context breadcrumb is
pushed trimmed. -/
def captureTruncatedSnapshot (tok : String → Nat) (tab : TabView)
    (maxTokens : Nat) (pageNum : Int) : String :=
  let rawSnapshot := (extractYaml (captureFullSnapshot tab)).getD ""
  let lines := splitLines rawSnapshot
  let elems := elementBoundaries lines
  let pages := buildPagesWith (fun el => tok (joinNL (sliceLines lines el.1 el.2)))
    maxTokens elems lines.length
  let total := totalPagesOf pages
  let actual := clampPage pageNum total
  match pages.get? (actual - 1).toNat with
  | none => emptyTruncatedSnapshot tab
  | some pg =>
    joinNL (["### Page state",
      "- Page URL: " ++ tab.url,
      "- Page Title: " ++ tab.title,
      (if total = 1 then "- Page Snapshot:"
       else s!"- Page Snapshot (Page {actual} of {total}):"),
      "```yaml"]
      ++ (match findContext lines pg.startLine with
          | some c => [jsTrim c]
          | none => [])
      ++ [joinNL (sliceLines lines pg.startLine pg.endLine)]
      ++ (if actual < total then
          bannerLines actual total (pg.endElement - pg.startElement)
            (elems.length - pg.endElement)
        else [])
      ++ ["```"])

/-- `Tab.captureSnapshot` (`part_000` lines 202-213): truncation parameters
default to the config budget and page 1; a positive budget selects the
truncated path (`pageNum || 1` maps a zero page number to 1). -/
def captureSnapshot (tok : String → Nat) (configTrunc : Nat) (tab : TabView)
    (truncateParams : Option (Nat × Option Int)) : String :=
  let maxTokens := match truncateParams with
    | some (m, _) => m
    | none => configTrunc
  let pageNum : Int := match truncateParams with
    | some (_, some q) => if q = 0 then 1 else q
    | some (_, none) => 1
    | none => 1
  if 0 < maxTokens then captureTruncatedSnapshot tok tab maxTokens pageNum
  else captureFullSnapshot tab

/-- A concrete Tab with one active dialog modal state. -/
def tabC7 : TabView :=
  { modalStates := [⟨ModalKind.dialog, "\"alert\" dialog with message \"hi\""⟩],
    toolNameFor := fun _ => some "browser_handle_dialog",
    recentConsoleMessages := [],
    downloads := [],
    url := "http://localhost/",
    title := "Example",
    rawSnapshot := "- button \"Ok\"" }

/-! ## Claim C7: snapshot capture under an active modal state -/

/-- C7 counterexample: for a Tab with one active dialog,
`captureTruncatedSnapshot` does not return the modal-state description — the
modal markdown holds no yaml block, so the extraction comes back empty and
the empty page-state snapshot is returned instead. -/
theorem c7_counterexample :
    tabC7.modalStates ≠ [] ∧
    captureTruncatedSnapshot (fun s => s.data.length) tabC7 20000 1 ≠
      joinNL (modalStatesMarkdown tabC7) ∧
    captureTruncatedSnapshot (fun s => s.data.length) tabC7 20000 1 =
      emptyTruncatedSnapshot tabC7 := by
  refine ⟨by decide, by decide, by decide⟩

/-- C7 (amended): with a non-empty modal-state list, `_captureFullSnapshot`
returns only the modal-state markdown and skips capturing the accessibility
tree; `captureTruncatedSnapshot`, however, loses that markdown — finding no
yaml block in it, it returns the empty page-state snapshot instead. -/
theorem c7_modal_snapshot :
    (∀ tab : TabView, tab.modalStates ≠ [] →
      captureFullSnapshot tab = joinNL (modalStatesMarkdown tab)) ∧
    (∀ (tab : TabView) (tok : String → Nat) (maxTokens : Nat) (pageNum : Int),
      tab.modalStates ≠ [] →
      extractYaml (joinNL (modalStatesMarkdown tab)) = none →
      captureTruncatedSnapshot tok tab maxTokens pageNum = emptyTruncatedSnapshot tab) := by
  have hfull : ∀ tab : TabView, tab.modalStates ≠ [] →
      captureFullSnapshot tab = joinNL (modalStatesMarkdown tab) := by
    intro tab h
    unfold captureFullSnapshot
    rw [if_pos]
    intro hlen
    exact h (List.length_eq_zero.mp hlen)
  refine ⟨hfull, ?_⟩
  intro tab tok maxTokens pageNum hmod hext
  unfold captureTruncatedSnapshot
  rw [hfull tab hmod, hext]
  rfl

theorem c7_modal_snapshot_witness :
    (tabC7.modalStates ≠ [] ∧
      captureFullSnapshot tabC7 = joinNL (modalStatesMarkdown tabC7)) ∧
    (extractYaml (joinNL (modalStatesMarkdown tabC7)) = none ∧
      captureTruncatedSnapshot (fun s => s.data.length) tabC7 20000 1 =
        emptyTruncatedSnapshot tabC7) :=
  ⟨⟨by decide, c7_modal_snapshot.1 tabC7 (by decide)⟩,
    ⟨by decide,
      c7_modal_snapshot.2 tabC7 (fun s => s.data.length) 20000 1 (by decide) (by decide)⟩⟩

/-! ## Claim C8: navigation-vs-download reclassification -/

/-- JavaScript `e.message.includes(pat)`. -/
def containsSub (s pat : String) : Bool :=
  (List.range (s.data.length + 1)).any (fun i => pat.data.isPrefixOf (s.data.drop i))

/-- The outcome of `Tab.navigate`'s error handling (`part_000` lines
144-164): a `page.goto` rejection is re-examined — when its message carries
one of the two engine-specific download signatures (`net::ERR_ABORTED` for
chromium, `Download is starting` for firefox and webkit) the code races a
3-second grace window for the download event (`downloadWithinGrace` records
which side won) and, after a 500 ms settle delay, returns success; in every
other case the error propagates. -/
def navigateOutcome (gotoError : Option String) (downloadWithinGrace : Bool) :
    Except String Unit :=
  match gotoError with
  | none => Except.ok ()
  | some e =>
    let mightBeDownload :=
      containsSub e "net::ERR_ABORTED" || containsSub e "Download is starting"
    if mightBeDownload = true then
      (if downloadWithinGrace then Except.ok () else Except.error e)
    else Except.error e

/-- C8: a navigation failure is reclassified as success exactly when the
error message matches one of the two engine-specific download signatures and
a download event arrives within the grace window; any other navigation error
— no matching signature, or no download within the window — is propagated
unchanged to the caller. -/
theorem c8_navigate_download_reclassification :
    (∀ (e : String) (d : Bool),
      (navigateOutcome (some e) d = Except.ok () ↔
        ((containsSub e "net::ERR_ABORTED" = true ∨
          containsSub e "Download is starting" = true) ∧ d = true)) ∧
      (navigateOutcome (some e) d = Except.ok () ∨
        navigateOutcome (some e) d = Except.error e)) ∧
    navigateOutcome (some "net::ERR_ABORTED at http://x/file.zip") true =
      Except.ok () ∧
    navigateOutcome (some "Download is starting") false =
      Except.error "Download is starting" ∧
    navigateOutcome (some "net::ERR_CONNECTION_REFUSED") true =
      Except.error "net::ERR_CONNECTION_REFUSED" := by
  refine ⟨?_, rfl, rfl, rfl⟩
  intro e d
  constructor
  · unfold navigateOutcome
    by_cases h1 : containsSub e "net::ERR_ABORTED" = true <;>
      by_cases h2 : containsSub e "Download is starting" = true <;>
        cases d <;>
          simp [h1, h2]
  · unfold navigateOutcome
    by_cases h1 : containsSub e "net::ERR_ABORTED" = true <;>
      by_cases h2 : containsSub e "Download is starting" = true <;>
        cases d <;>
          simp [h1, h2]

/-! ## Claim C4: the boundary-detection rule -/

/-- C4: element-boundary detection is a single linear pass equal to the
declarative rule — a new element begins at a non-blank line when the scanner
is not already inside an element; the open element closes one past the first
line at or after its start satisfying the end condition (the line is blank,
or the next line is non-blank with indentation at most the current line's
while the current line is a list item starting with a dash after trimming);
boundary detection never breaks a line (boundaries are whole-line ranges);
and an element still open at end of input is force-closed there. -/
theorem c4_boundary_detection (lines : List String) :
    elementBoundaries lines = elementBoundariesSpec lines :=
  elementBoundaries_eq_spec lines

/-! ## Claim C9: the race helper with a pre-existing modal state -/

/-- `Tab._raceAgainstModalStates(action)` (`part_000` lines 410-425): with a
non-empty queue, return the queue head without calling `action`; with an
empty queue, subscribe a one-shot listener and race the action against it —
`emitted` records the first modal state pushed while the action runs (`none`
when the action completes first).  The second component records whether
`action()` was invoked. -/
def raceAgainstModalStates (pre : List ModalStateM) (emitted : Option ModalStateM) :
    Option ModalStateM × Bool :=
  match pre with
  | m :: _ => (some m, false)
  | [] =>
    match emitted with
    | some m => (some m, true)
    | none => (none, true)

/-- C9 counterexample: with a modal state already queued, the helper returns
it but the action callback is never invoked (second component `false`),
refuting the claim that the side-effecting action is still issued. -/
theorem c9_counterexample :
    (raceAgainstModalStates [⟨ModalKind.dialog, "\"confirm\" dialog"⟩] none).1 =
      some ⟨ModalKind.dialog, "\"confirm\" dialog"⟩ ∧
    (raceAgainstModalStates [⟨ModalKind.dialog, "\"confirm\" dialog"⟩] none).2 = false := by
  exact ⟨rfl, rfl⟩

/-- C9 (amended): whenever the modal-state queue is non-empty when the race
helper is invoked, it immediately returns the FIFO head of the queue and the
action is not issued at all — the short-circuit skips the action entirely,
whatever modal state a running action might have emitted. -/
theorem c9_race_short_circuit (pre : List ModalStateM) (emitted : Option ModalStateM)
    (h : pre ≠ []) :
    raceAgainstModalStates pre emitted = (pre.head?, false) := by
  cases pre with
  | nil => exact absurd rfl h
  | cons m rest => rfl

theorem c9_race_short_circuit_witness :
    ([⟨ModalKind.dialog, "d"⟩] : List ModalStateM) ≠ [] ∧
    raceAgainstModalStates [⟨ModalKind.dialog, "d"⟩] none =
      (([⟨ModalKind.dialog, "d"⟩] : List ModalStateM).head?, false) :=
  ⟨by decide, c9_race_short_circuit _ none (by decide)⟩

end PlaywrightMcp

